import Mathlib

set_option maxHeartbeats 1000000

/-!
Verification development for the jasy JavaScript tokenizer
(src/lib/js/Tokenizer.py).

The repository file contains, in valid Python, the construction of the
Tokenizer object, the regular-expression and table declarations
(keywords, assignOps, symbolNames, the matchers) and the public ring
buffer operations peek, peekOnSameLine, match, mustMatch and unget.
The scanning core (skip and the lex* routines and the fresh path of
get) appears there only as a discarded draft in a foreign syntax that
is not runnable Python; the intended regex-driven implementation is
not in the sources, so those routines are modelled here from the
specification (sections 4.3, 4.4, 6 and 7) using the tables and
regular expressions that the source does declare.  Every definition
modelled from the specification says so in its doc comment.
-/

/-- Semantic payload of a token.  Python stores either a string or a
number in `token.value`; floating point literals keep their matched
text here (their machine-float decoding is outside the model). -/
inductive TValue where
  | str : String → TValue
  | num : Int → TValue
deriving DecidableEq, Repr

/-- Token value object, per the data model of the specification: type
tag, payload, literal sub-kind, base operator of a compound
assignment, the half-open byte range and the 1-based line of `start`,
and the comments collected immediately before the token. -/
structure Token where
  type : String
  value : TValue
  variant : String
  assignOp : Option String
  start : Nat
  end_ : Nat
  line : Nat
  comments : List String
deriving DecidableEq, Repr

/-- The error kinds of the tokenizer (spec section 7).  `internalError`
models a Python KeyError on a ring slot that was never filled. -/
inductive ScanError where
  | illegalToken
  | unterminatedComment
  | unterminatedString
  | unterminatedRegex
  | unterminatedClass
  | missingExponent
  | missingToken (expected : String)
  | lookaheadOverflow
  | internalError
deriving DecidableEq, Repr

/-- The keyword list of Tokenizer.py (lines 14-29). -/
def keywords : List String :=
  ["break",
   "case", "catch", "const", "continue",
   "debugger", "default", "delete", "do",
   "else", "enum",
   "false", "finally", "for", "function",
   "if", "in", "instanceof",
   "let",
   "new", "null",
   "return",
   "switch",
   "this", "throw", "true", "try", "typeof",
   "var", "void",
   "yield",
   "while", "with"]

/-- The compoundable operator list assignOps of Tokenizer.py (line 31). -/
def assignOps : List String :=
  ["|", "^", "&", "<<", ">>", ">>>", "+", "-", "*", "/", "%"]

/-- The ordered operator and punctuator table symbolNames of
Tokenizer.py (lines 38-77). -/
def symbolNames : List (String × String) :=
  [("\n",  "newline"),
   (";",   "semicolon"),
   (",",   "comma"),
   ("?",   "hook"),
   (":",   "colon"),
   ("||",  "or"),
   ("&&",  "and"),
   ("|",   "bitwise_or"),
   ("^",   "bitwise_xor"),
   ("&",   "bitwise_and"),
   ("===", "strict_eq"),
   ("==",  "eq"),
   ("=",   "assign"),
   ("!==", "strict_ne"),
   ("!=",  "ne"),
   ("<<",  "lsh"),
   ("<=",  "le"),
   ("<",   "lt"),
   (">>>", "ursh"),
   (">>",  "rsh"),
   (">=",  "ge"),
   (">",   "gt"),
   ("++",  "increment"),
   ("--",  "decrement"),
   ("+",   "plus"),
   ("-",   "minus"),
   ("*",   "mul"),
   ("/",   "div"),
   ("%",   "mod"),
   ("!",   "not"),
   ("~",   "bitwise_not"),
   (".",   "dot"),
   ("[",   "left_bracket"),
   ("]",   "right_bracket"),
   ("\x7b", "left_curly"),
   ("\x7d", "right_curly"),
   ("(",   "left_paren"),
   (")",   "right_paren")]

/-- The entries that enter the operator matcher: Tokenizer.py builds
symbolMatcher from symbolNames skipping the newline entry (lines
86-93); alternation in a Python regular expression takes the first
alternative that matches, so matching is first-in-table-order. -/
def opMatchList : List (String × String) :=
  symbolNames.filter (fun p => p.1 ≠ "\n")

def isDigitC (c : Char) : Bool := '0' ≤ c && c ≤ '9'

def isHexC (c : Char) : Bool :=
  isDigitC c || ('a' ≤ c && c ≤ 'f') || ('A' ≤ c && c ≤ 'F')

def isOctC (c : Char) : Bool := '0' ≤ c && c ≤ '7'

/-- ASCII identifier start characters (spec section 4.3 rule 1 and the
dispatch of get in the source draft). -/
def isIdentStartC (c : Char) : Bool :=
  ('a' ≤ c && c ≤ 'z') || ('A' ≤ c && c ≤ 'Z') || c == '$' || c == '_'

def isIdentC (c : Char) : Bool := isIdentStartC c || isDigitC c

def digitVal (c : Char) : Nat := c.toNat - '0'.toNat

def hexVal (c : Char) : Nat :=
  if isDigitC c then digitVal c
  else if 'a' ≤ c && c ≤ 'f' then c.toNat - 'a'.toNat + 10
  else c.toNat - 'A'.toNat + 10

def natOfDigits (base : Nat) (ds : List Char) : Nat :=
  ds.foldl (fun a c => a * base + hexVal c) 0

/-- Outcome of one sub-lexer: the token fields it determines plus the
number of characters it consumed. -/
structure LexOut where
  type : String
  value : TValue
  variant : String
  assignOp : Option String
  consumed : Nat
deriving DecidableEq, Repr

/-- Modelled from the spec: the exponent part of a numeric literal
(section 4.3 rule 2 and error MissingExponentDigits in section 7): an
e or E, an optional sign, then at least one digit, else the scan fails.
Returns the number of characters consumed (0 when no marker). -/
def lexExponent (l : List Char) : Except ScanError Nat :=
  match l with
  | [] => .ok 0
  | c :: rest =>
    if c == 'e' || c == 'E' then
      match rest with
      | [] => .error .missingExponent
      | s :: rest2 =>
        if s == '+' || s == '-' then
          let ds := rest2.takeWhile isDigitC
          if ds.isEmpty then .error .missingExponent else .ok (2 + ds.length)
        else
          let ds := rest.takeWhile isDigitC
          if ds.isEmpty then .error .missingExponent else .ok (1 + ds.length)
    else .ok 0

/-- Modelled from the spec: the integer forms of section 4.3 rule 2,
following the numberMatcher regular expression declared in the source:
hexadecimal 0x/0X, legacy octal (leading 0), else decimal. -/
def lexIntOut (l ds : List Char) : LexOut :=
  match l with
  | '0' :: c2 :: rest =>
    if c2 == 'x' || c2 == 'X' then
      let hx := rest.takeWhile isHexC
      if hx.isEmpty then
        { type := "number", value := .num 0, variant := "int",
          assignOp := none, consumed := 1 }
      else
        { type := "number", value := .num (natOfDigits 16 hx : Nat),
          variant := "int", assignOp := none, consumed := 2 + hx.length }
    else
      let os := (c2 :: rest).takeWhile isOctC
      { type := "number", value := .num (natOfDigits 8 os : Nat),
        variant := "int", assignOp := none, consumed := 1 + os.length }
  | _ =>
    { type := "number", value := .num (natOfDigits 10 ds : Nat),
      variant := "int", assignOp := none, consumed := ds.length }

/-- Modelled from the spec: numeric literal classification (section
4.3 rule 2), mirroring floatMatcher and numberMatcher declared in the
source: a floating pattern (fractional part and/or exponent, or a
leading dot followed by digits) takes precedence over the integer
patterns.  Float values keep the matched text. -/
def lexNumberOut (l : List Char) : Except ScanError LexOut :=
  let ds := l.takeWhile isDigitC
  match l.drop ds.length with
  | '.' :: rest2 =>
    let fs := rest2.takeWhile isDigitC
    match lexExponent (rest2.drop fs.length) with
    | .error e => .error e
    | .ok k =>
      let n := ds.length + 1 + fs.length + k
      .ok { type := "number", value := .str (String.mk (l.take n)),
            variant := "float", assignOp := none, consumed := n }
  | c :: _ =>
    if c == 'e' || c == 'E' then
      match lexExponent (l.drop ds.length) with
      | .error e => .error e
      | .ok k =>
        let n := ds.length + k
        .ok { type := "number", value := .str (String.mk (l.take n)),
              variant := "float", assignOp := none, consumed := n }
    else .ok (lexIntOut l ds)
  | [] => .ok (lexIntOut l ds)

/-- Modelled from the spec: the escape decoder of design note 3 in
section 9: a backslash-letter table, unrecognized escapes pass the
escaped character through. -/
def decodeEscape (c : Char) : Char :=
  if c == 'n' then '\n'
  else if c == 't' then '\t'
  else if c == 'r' then '\r'
  else if c == 'b' then '\x08'
  else if c == 'f' then '\x0c'
  else if c == 'v' then '\x0b'
  else if c == '0' then '\x00'
  else c

/-- Modelled from the spec: the body of a string literal after the
opening quote (section 4.3 rule 3 and error UnterminatedString of
section 7): the closing quote is the first unescaped occurrence of the
delimiter, a backslash escapes the following character, and running
out of input is the UnterminatedString error.  Returns the decoded
content and the number of characters consumed including the closing
quote. -/
def lexStringBody (delim : Char) : List Char → Except ScanError (List Char × Nat)
  | [] => .error .unterminatedString
  | c :: rest =>
    if c == delim then .ok ([], 1)
    else if c == '\\' then
      match rest with
      | [] => .error .unterminatedString
      | e :: rest2 =>
        match lexStringBody delim rest2 with
        | .error err => .error err
        | .ok (cs, n) => .ok (decodeEscape e :: cs, n + 2)
    else
      match lexStringBody delim rest with
      | .error err => .error err
      | .ok (cs, n) => .ok (c :: cs, n + 1)

/-- Modelled from the spec: a bracketed character class inside a
regular expression literal (section 4.3 rule 4): escaped characters
allowed, runs to the first unescaped closing bracket, running out of
input is the UnterminatedCharacterClass error.  Consumed count
includes the closing bracket. -/
def lexClassBody : List Char → Except ScanError Nat
  | [] => .error .unterminatedClass
  | c :: rest =>
    if c == ']' then .ok 1
    else if c == '\\' then
      match rest with
      | [] => .error .unterminatedClass
      | _ :: rest2 =>
        match lexClassBody rest2 with
        | .error err => .error err
        | .ok n => .ok (n + 2)
    else
      match lexClassBody rest with
      | .error err => .error err
      | .ok n => .ok (n + 1)

/-- Modelled from the spec: the body of a regular expression literal
after the opening slash (section 4.3 rule 4), following the
regularExprMatcher regular expression declared in the source: items
are escaped characters, bracketed classes or plain characters, up to
the closing slash; running off the end is UnterminatedRegexLiteral.
Fuel-driven; the callers pass the length of the remaining input plus
one, which is always sufficient. -/
def lexRegExpBody : Nat → List Char → Except ScanError Nat
  | 0, _ => .error .unterminatedRegex
  | _ + 1, [] => .error .unterminatedRegex
  | fuel + 1, c :: rest =>
    if c == '/' then .ok 1
    else if c == '\\' then
      match rest with
      | [] => .error .unterminatedRegex
      | _ :: rest2 =>
        match lexRegExpBody fuel rest2 with
        | .error err => .error err
        | .ok n => .ok (n + 2)
    else if c == '[' then
      match lexClassBody rest with
      | .error err => .error err
      | .ok k =>
        match lexRegExpBody fuel (rest.drop k) with
        | .error err => .error err
        | .ok n => .ok (n + 1 + k)
    else
      match lexRegExpBody fuel rest with
      | .error err => .error err
      | .ok n => .ok (n + 1)

/-- Modelled from the spec: a whole regular expression literal, `l`
starting at the opening slash; the trailing flags follow the gimy
letter set of the regularExprMatcher declared in the source.  The
value is the pattern body, the variant the flags. -/
def lexRegExpOut (l : List Char) : Except ScanError LexOut :=
  match l with
  | [] => .error .unterminatedRegex
  | _ :: body =>
    match lexRegExpBody (body.length + 1) body with
    | .error err => .error err
    | .ok n =>
      let fs := (body.drop n).takeWhile
        (fun c => c == 'g' || c == 'i' || c == 'm' || c == 'y')
      .ok { type := "regexp", value := .str (String.mk (body.take (n - 1))),
            variant := String.mk fs, assignOp := none,
            consumed := 1 + n + fs.length }

def strPrefixOf (s : String) (l : List Char) : Bool :=
  s.toList.isPrefixOf l

/-- First entry of the operator table whose symbol starts the input:
the semantics of the symbolMatcher alternation built in the source. -/
def findOp (l : List Char) : Option (String × String) :=
  opMatchList.find? (fun p => strPrefixOf p.1 l)

/-- Modelled from the spec: operator and punctuator classification
(section 4.3 rule 5) over the symbolNames table and assignOps list
declared in the source: first (hence longest) table match, then the
compound-assignment reclassification when the operator is compoundable
and an equals sign follows. -/
def lexOpOut (l : List Char) : Option LexOut :=
  match findOp l with
  | none => none
  | some (sym, name) =>
    if assignOps.contains sym && (l.drop sym.length).head? == some '=' then
      some { type := "assign", value := .str (sym ++ "="), variant := "",
             assignOp := some name, consumed := sym.length + 1 }
    else
      some { type := name, value := .str sym, variant := "",
             assignOp := none, consumed := sym.length }

/-- Modelled from the spec: keyword and identifier classification
(section 4.3 rule 1) over the keyword list declared in the source: an
identifier-shaped run; a reserved word becomes its own token type. -/
def lexIdentOut (l : List Char) : LexOut :=
  let ds := l.takeWhile isIdentC
  let id := String.mk ds
  { type := if keywords.contains id then id else "identifier",
    value := .str id, variant := "", assignOp := none,
    consumed := ds.length }

/-- Whitespace the skipper consumes: spaces and tabs always, line
feeds (and carriage returns as the other whitespace) only when
scanNewlines is off (spec section 4.4). -/
def isWS (scanNewlines : Bool) (c : Char) : Bool :=
  c == ' ' || c == '\t' || (!scanNewlines && (c == '\n' || c == '\r'))

/-- Characters up to and including the first block-comment closer, or
none when the input ends first. -/
def findBlockEnd : List Char → Option Nat
  | '*' :: '/' :: _ => some 2
  | _ :: rest => (findBlockEnd rest).map (· + 1)
  | [] => none

/-- Modelled from the spec: one comment at the current position
(section 4.4), following the commentMatcher regular expression
declared in the source: a block comment up to the first closing
marker (UnterminatedComment when the input ends first) or a line
comment up to, not including, the end of the line.  Returns the
number of characters consumed and the raw comment text, or none when
no comment starts here. -/
def skipComment (l : List Char) : Except ScanError (Option (Nat × String)) :=
  match l with
  | '/' :: '*' :: rest =>
    match findBlockEnd rest with
    | none => .error .unterminatedComment
    | some k => .ok (some (2 + k, String.mk (l.take (2 + k))))
  | '/' :: '/' :: rest =>
    let k := (rest.takeWhile (fun c => c != '\n')).length
    .ok (some (2 + k, String.mk (l.take (2 + k))))
  | _ => .ok none

/-- Modelled from the spec: the whitespace and comment skipper
(section 4.4): alternately a maximal whitespace run (counting line
feeds into the line counter) and one comment, until neither is found.
Fuel-driven; callers pass the remaining length plus one, which is
always sufficient since every continuing round consumes a character.
Returns characters consumed, the new line counter and the collected
comment texts. -/
def skipLoop : Nat → List Char → Bool → Nat → List String →
    Except ScanError (Nat × Nat × List String)
  | 0, _, _, line, acc => .ok (0, line, acc.reverse)
  | fuel + 1, l, sN, line, acc =>
    let ws := l.takeWhile (isWS sN)
    let w := ws.length
    let line1 := line + ws.count '\n'
    let l1 := l.drop w
    match skipComment l1 with
    | .error e => .error e
    | .ok none => .ok (w, line1, acc.reverse)
    | .ok (some (k, t)) =>
      let line2 := line1 + (l1.take k).count '\n'
      match skipLoop fuel (l1.drop k) sN line2 (t :: acc) with
      | .error e => .error e
      | .ok (n, line3, cs) => .ok (w + k + n, line3, cs)

/-- Modelled from the spec: skip at cursor level: returns the new
cursor, the new line counter and the comments collected. -/
def skip (src : List Char) (c : Nat) (sN : Bool) (line : Nat) :
    Except ScanError (Nat × Nat × List String) :=
  let l := src.drop c
  match skipLoop (l.length + 1) l sN line [] with
  | .error e => .error e
  | .ok (n, line1, cs) => .ok (c + n, line1, cs)

/-- Token assembled from a sub-lexer outcome at cursor `c`. -/
def LexOut.toToken (o : LexOut) (c line : Nat) (comments : List String) :
    Token :=
  { type := o.type, value := o.value, variant := o.variant,
    assignOp := o.assignOp, start := c, end_ := c + o.consumed,
    line := line, comments := comments }

def headDigit (l : List Char) : Bool :=
  match l with
  | d :: _ => isDigitC d
  | [] => false

/-- Modelled from the spec: the token classification engine (section
4.3) of the regex-driven core, which is not present under src: at the
post-skip cursor, end of input yields the end token with start and
end both the source length; otherwise identifier/keyword, numeric
literal (also a leading dot followed by a digit), string, regular
expression (only when scanOperand), newline (only when scanNewlines),
operator/punctuator, else the IllegalToken error.  Returns the token,
the new cursor and the new line counter. -/
def classify (src : List Char) (c : Nat) (line : Nat) (sN sO : Bool)
    (comments : List String) : Except ScanError (Token × Nat × Nat) :=
  match src.drop c with
  | [] =>
    .ok ({ type := "end", value := .str "", variant := "",
           assignOp := none, start := src.length, end_ := src.length,
           line := line, comments := comments }, c, line)
  | ch :: rest =>
    if isIdentStartC ch then
      let o := lexIdentOut (ch :: rest)
      .ok (o.toToken c line comments, c + o.consumed, line)
    else if isDigitC ch || (ch == '.' && headDigit rest) then
      match lexNumberOut (ch :: rest) with
      | .error e => .error e
      | .ok o => .ok (o.toToken c line comments, c + o.consumed, line)
    else if ch == '"' || ch == '\x27' then
      match lexStringBody ch rest with
      | .error e => .error e
      | .ok (cs, n) =>
        let o : LexOut :=
          { type := "string", value := .str (String.mk cs),
            variant := if ch == '\x27' then "single" else "double",
            assignOp := none, consumed := 1 + n }
        .ok (o.toToken c line comments, c + o.consumed, line)
    else if sO && ch == '/' then
      match lexRegExpOut (ch :: rest) with
      | .error e => .error e
      | .ok o => .ok (o.toToken c line comments, c + o.consumed, line)
    else if ch == '\n' && sN then
      let o : LexOut :=
        { type := "newline", value := .str "\n", variant := "",
          assignOp := none, consumed := 1 }
      .ok (o.toToken c line comments, c + 1, line + 1)
    else
      match lexOpOut (ch :: rest) with
      | none => .error .illegalToken
      | some o => .ok (o.toToken c line comments, c + o.consumed, line)

/-- The 4-slot ring buffer: Tokenizer.py reuses a small dict keyed by
index mod 4; design note 1 of the spec fixes it as four optional
slots with index arithmetic modulo 4. -/
structure Ring4 where
  s0 : Option Token
  s1 : Option Token
  s2 : Option Token
  s3 : Option Token
deriving DecidableEq, Repr

def Ring4.get (r : Ring4) (i : Nat) : Option Token :=
  match i % 4 with
  | 0 => r.s0
  | 1 => r.s1
  | 2 => r.s2
  | _ => r.s3

def Ring4.set (r : Ring4) (i : Nat) (t : Token) : Ring4 :=
  match i % 4 with
  | 0 => { r with s0 := some t }
  | 1 => { r with s1 := some t }
  | 2 => { r with s2 := some t }
  | _ => { r with s3 := some t }

/-- The scanning session state of Tokenizer.py. -/
structure Tokenizer where
  source : List Char
  filename : String
  cursor : Nat
  line : Nat
  tokens : Ring4
  tokenIndex : Nat
  lookahead : Nat
  scanNewlines : Bool
  scanOperand : Bool
deriving DecidableEq, Repr

/-- Construction per Tokenizer.__init__ (lines 144-153): cursor 0,
line 1, empty buffer, scanNewlines false, scanOperand true. -/
def Tokenizer.init (source : List Char) (filename : String) : Tokenizer :=
  { source := source, filename := filename, cursor := 0, line := 1,
    tokens := ⟨none, none, none, none⟩, tokenIndex := 0, lookahead := 0,
    scanNewlines := false, scanOperand := true }

/-- The token property of Tokenizer.py (line 157): the slot of the
most recently consumed token. -/
def Tokenizer.token (s : Tokenizer) : Option Token :=
  s.tokens.get s.tokenIndex

/-- The fresh-scan path of get (the skip-then-classify half, spec
section 4.2; the core implementation of this path is the regex-driven
version modelled above): skip, advance the ring index, classify, store
the token, return its type. -/
def Tokenizer.getFresh (s : Tokenizer) : Except ScanError (String × Tokenizer) :=
  match skip s.source s.cursor s.scanNewlines s.line with
  | .error e => .error e
  | .ok (c1, line1, comments) =>
    match classify s.source c1 line1 s.scanNewlines s.scanOperand comments with
    | .error e => .error e
    | .ok (tok, c2, line2) =>
      let ti := (s.tokenIndex + 1) % 4
      .ok (tok.type,
           { s with cursor := c2, line := line2, tokenIndex := ti,
                    tokens := s.tokens.set ti tok })

/-- The buffered-replay loop of get (Tokenizer.py lines 466-471):
while lookahead remains, consume one buffered slot, skipping buffered
newline tokens when scanNewlines is off; an unfilled slot is a Python
KeyError, modelled as internalError.  The fuel argument equals the
lookahead count of the state it is applied to. -/
def Tokenizer.getLoop : Nat → Tokenizer → Except ScanError (String × Tokenizer)
  | 0, s => s.getFresh
  | n + 1, s =>
    let ti := (s.tokenIndex + 1) % 4
    let s1 := { s with lookahead := n, tokenIndex := ti }
    match s.tokens.get ti with
    | none => .error .internalError
    | some tok =>
      if tok.type == "newline" && !s.scanNewlines then Tokenizer.getLoop n s1
      else .ok (tok.type, s1)

/-- get (Tokenizer.py lines 465-519): replay buffered lookahead, else
scan a fresh token; returns the token type. -/
def Tokenizer.get (s : Tokenizer) : Except ScanError (String × Tokenizer) :=
  Tokenizer.getLoop s.lookahead s

/-- unget (Tokenizer.py lines 522-528): one more lookahead, a fatal
LookaheadOverflow when that count reaches 4, else the ring index moves
back one slot modulo 4. -/
def Tokenizer.unget (s : Tokenizer) : Except ScanError Tokenizer :=
  let la := s.lookahead + 1
  if la == 4 then .error .lookaheadOverflow
  else .ok { s with lookahead := la, tokenIndex := (s.tokenIndex + 3) % 4 }

/-- peek (Tokenizer.py lines 170-181): with buffered lookahead,
inspect the slot at tokenIndex plus lookahead modulo 4 without
touching the state, reporting newline when scanNewlines is set and
the buffered token's line differs from the tokenizer's line (a
missing slot yields the Python None, modelled as none); with no
lookahead, get then unget. -/
def Tokenizer.peek (s : Tokenizer) : Except ScanError (Option String × Tokenizer) :=
  if s.lookahead ≠ 0 then
    let next := s.tokens.get ((s.tokenIndex + s.lookahead) % 4)
    let tt : Option String :=
      match next with
      | some t =>
        if s.scanNewlines && t.line != s.line then some "newline"
        else some t.type
      | none => if s.scanNewlines then some "newline" else none
    .ok (tt, s)
  else
    match s.get with
    | .error e => .error e
    | .ok (tt, s1) =>
      match s1.unget with
      | .error e => .error e
      | .ok s2 => .ok (some tt, s2)

/-- peekOnSameLine (Tokenizer.py lines 184-188): set scanNewlines,
peek, then set scanNewlines to False (the source assigns False, it
does not restore the previous value). -/
def Tokenizer.peekOnSameLine (s : Tokenizer) :
    Except ScanError (Option String × Tokenizer) :=
  let s1 := { s with scanNewlines := true }
  match s1.peek with
  | .error e => .error e
  | .ok (tt, s2) => .ok (tt, { s2 with scanNewlines := false })

/-- match (Tokenizer.py lines 160-161): get, keep the token and
answer true on a type match, else unget and answer the Python None,
which is falsy and modelled as false. -/
def Tokenizer.matchTok (s : Tokenizer) (tokenType : String) :
    Except ScanError (Bool × Tokenizer) :=
  match s.get with
  | .error e => .error e
  | .ok (tt, s1) =>
    if tt == tokenType then .ok (true, s1)
    else
      match s1.unget with
      | .error e => .error e
      | .ok s2 => .ok (false, s2)

/-- mustMatch (Tokenizer.py lines 164-167): match, else the
MissingExpectedToken diagnostic; on success the current token. -/
def Tokenizer.mustMatch (s : Tokenizer) (tokenType : String) :
    Except ScanError (Option Token × Tokenizer) :=
  match s.matchTok tokenType with
  | .error e => .error e
  | .ok (b, s1) =>
    if b then .ok (s1.token, s1) else .error (.missingToken tokenType)

/-- Identifier token produced by scanning the one-character source a. -/
def wTokA : Token :=
  { type := "identifier", value := .str "a", variant := "", assignOp := none,
    start := 0, end_ := 1, line := 1, comments := [] }

/-- State after one get on the one-character source a. -/
def wGetState : Tokenizer :=
  { Tokenizer.init ['a'] "f" with
    cursor := 1,
    tokenIndex := 1,
    tokens := ⟨none, some wTokA, none, none⟩ }

/-- State after get then unget on the one-character source a (also the
state peekOnSameLine leaves behind there). -/
def wPeekBackState : Tokenizer :=
  { Tokenizer.init ['a'] "f" with
    cursor := 1,
    tokenIndex := 0,
    lookahead := 1,
    tokens := ⟨none, some wTokA, none, none⟩ }

/-- Driving the public interface on the source a-space-semicolon:
get, get, unget, unget reaches a state with two buffered lookahead
tokens; then peek once and get once and report both answers. -/
def c1run : Except ScanError (Option String × String) := do
  let (_, s1) ← (Tokenizer.init ['a', ' ', ';'] "f").get
  let (_, s2) ← s1.get
  let s3 ← s2.unget
  let s4 ← s3.unget
  let (p, _) ← s4.peek
  let (g, _) ← s4.get
  pure (p, g)

/-- Repeated get collecting the returned type and the current token. -/
def getsWithTokens : Nat → Tokenizer → Except ScanError (List (String × Option Token))
  | 0, _ => .ok []
  | n + 1, s => do
    let (tt, s1) ← s.get
    let l ← getsWithTokens n s1
    pure ((tt, s1.token) :: l)

/-- The compound-assignment example source of the spec: x >>>= 1. -/
def c5src : List Char := ['x', ' ', '>', '>', '>', '=', ' ', '1']

def c5run : Except ScanError (List (String × Option Token)) :=
  getsWithTokens 3 (Tokenizer.init c5src "f")

def c5tok1 : Token :=
  { type := "identifier", value := .str "x", variant := "", assignOp := none,
    start := 0, end_ := 1, line := 1, comments := [] }

def c5tok2 : Token :=
  { type := "assign", value := .str ">>>=", variant := "",
    assignOp := some "ursh", start := 2, end_ := 6, line := 1, comments := [] }

def c5tok3 : Token :=
  { type := "number", value := .num 1, variant := "int", assignOp := none,
    start := 7, end_ := 8, line := 1, comments := [] }

/-- The state getFresh builds on success: a scanned token stored in the
next ring slot. -/
def freshState (s : Tokenizer) (tok : Token) (c2 l2 : Nat) : Tokenizer :=
  { s with
    cursor := c2,
    line := l2,
    tokenIndex := (s.tokenIndex + 1) % 4,
    tokens := s.tokens.set ((s.tokenIndex + 1) % 4) tok }

/-- The state unget builds on success. -/
def ungetState (s : Tokenizer) : Tokenizer :=
  { s with
    lookahead := s.lookahead + 1,
    tokenIndex := (s.tokenIndex + 3) % 4 }

/-- Operator token produced by scanning the one-character source plus. -/
def c6tokPlus : Token :=
  { type := "plus", value := .str "+", variant := "", assignOp := none,
    start := 0, end_ := 1, line := 1, comments := [] }

/-- Operator token produced by scanning the one-character source minus. -/
def c6tokMinus : Token :=
  { type := "minus", value := .str "-", variant := "", assignOp := none,
    start := 0, end_ := 1, line := 1, comments := [] }

theorem Ring4.get_set_self (r : Ring4) (i : Nat) (t : Token) :
    (r.set i t).get i = some t := by
  have h : i % 4 = 0 ∨ i % 4 = 1 ∨ i % 4 = 2 ∨ i % 4 = 3 := by omega
  rcases h with h | h | h | h <;> simp [Ring4.get, Ring4.set, h]

theorem Ring4.get_set_ne (r : Ring4) (i j : Nat) (t : Token)
    (h : j % 4 ≠ i % 4) : (r.set i t).get j = r.get j := by
  have hi : i % 4 = 0 ∨ i % 4 = 1 ∨ i % 4 = 2 ∨ i % 4 = 3 := by omega
  have hj : j % 4 = 0 ∨ j % 4 = 1 ∨ j % 4 = 2 ∨ j % 4 = 3 := by omega
  rcases hi with hi | hi | hi | hi <;> rcases hj with hj | hj | hj | hj <;>
    first
      | exact absurd (hj.trans hi.symm) h
      | simp [Ring4.get, Ring4.set, hi, hj]

theorem opMatchList_facts : ∀ p ∈ opMatchList,
    p.2 ≠ "newline" ∧ p.2 ≠ "end" ∧ p.2 ≠ "unary_plus" ∧
    p.2 ≠ "unary_minus" ∧ 1 ≤ p.1.length := by decide

theorem keywords_facts : ∀ k ∈ keywords,
    k ≠ "newline" ∧ k ≠ "end" ∧ k ≠ "unary_plus" ∧ k ≠ "unary_minus" := by
  decide

theorem lexIntOut_type (l ds : List Char) : (lexIntOut l ds).type = "number" := by
  unfold lexIntOut
  split
  · split
    · dsimp only
      split <;> rfl
    · rfl
  · rfl

theorem lexNumberOut_type (l : List Char) (o : LexOut)
    (h : lexNumberOut l = .ok o) : o.type = "number" := by
  unfold lexNumberOut at h
  dsimp only at h
  split at h
  · split at h
    · exact absurd h (by simp)
    · injection h with h'
      subst h'
      rfl
  · split at h
    · split at h
      · exact absurd h (by simp)
      · injection h with h'
        subst h'
        rfl
    · injection h with h'
      subst h'
      exact lexIntOut_type _ _
  · injection h with h'
    subst h'
    exact lexIntOut_type _ _

theorem lexIdentOut_type_safe (l : List Char) :
    (lexIdentOut l).type ≠ "newline" ∧ (lexIdentOut l).type ≠ "end" ∧
    (lexIdentOut l).type ≠ "unary_plus" ∧ (lexIdentOut l).type ≠ "unary_minus" := by
  unfold lexIdentOut
  dsimp only
  split
  · next h =>
    have hm : String.mk (l.takeWhile isIdentC) ∈ keywords := by simpa using h
    exact keywords_facts _ hm
  · refine ⟨by decide, by decide, by decide, by decide⟩

theorem lexIdentOut_consumed (c : Char) (rest : List Char)
    (h : isIdentStartC c = true) : 1 ≤ (lexIdentOut (c :: rest)).consumed := by
  have hc : isIdentC c = true := by simp [isIdentC, h]
  unfold lexIdentOut
  dsimp only
  simp [List.takeWhile_cons, hc]

theorem lexIntOut_consumed (l ds : List Char) (h : 1 ≤ ds.length) :
    1 ≤ (lexIntOut l ds).consumed := by
  unfold lexIntOut
  split
  · split
    · dsimp only
      split
      · dsimp only
        omega
      · dsimp only
        omega
    · dsimp only
      omega
  · dsimp only
    exact h

theorem findOp_mem (l : List Char) (p : String × String)
    (h : findOp l = some p) : p ∈ opMatchList :=
  List.mem_of_find?_eq_some h

theorem lexOpOut_spec (l : List Char) (o : LexOut) (h : lexOpOut l = some o) :
    1 ≤ o.consumed ∧ (o.type = "assign" ∨ ∃ p ∈ opMatchList, o.type = p.2) := by
  unfold lexOpOut at h
  split at h
  · exact absurd h (by simp)
  · next sym name heq =>
    have hmem : (sym, name) ∈ opMatchList := findOp_mem _ _ heq
    split at h
    · injection h with h'
      subst h'
      exact ⟨by dsimp only; omega, Or.inl rfl⟩
    · injection h with h'
      subst h'
      refine ⟨(opMatchList_facts _ hmem).2.2.2.2, Or.inr ⟨(sym, name), hmem, rfl⟩⟩

theorem lexRegExpOut_spec (l : List Char) (o : LexOut)
    (h : lexRegExpOut l = .ok o) : o.type = "regexp" ∧ 1 ≤ o.consumed := by
  unfold lexRegExpOut at h
  split at h
  · exact absurd h (by simp)
  · split at h
    · exact absurd h (by simp)
    · injection h with h'
      subst h'
      exact ⟨rfl, by dsimp only; omega⟩

theorem lexNumberOut_consumed (c : Char) (rest : List Char) (o : LexOut)
    (hd : isDigitC c = true ∨ (c = '.' ∧ headDigit rest = true))
    (h : lexNumberOut (c :: rest) = .ok o) : 1 ≤ o.consumed := by
  rcases hd with hd | ⟨hc, -⟩
  · have hds : (c :: rest).takeWhile isDigitC = c :: rest.takeWhile isDigitC := by
      simp [List.takeWhile_cons, hd]
    have hlen : 1 ≤ ((c :: rest).takeWhile isDigitC).length := by
      rw [hds]; simp
    unfold lexNumberOut at h
    dsimp only at h
    split at h
    · split at h
      · exact absurd h (by simp)
      · injection h with h'
        subst h'
        dsimp only
        omega
    · split at h
      · split at h
        · exact absurd h (by simp)
        · injection h with h'
          subst h'
          dsimp only
          omega
      · injection h with h'
        subst h'
        exact lexIntOut_consumed _ _ hlen
    · injection h with h'
      subst h'
      exact lexIntOut_consumed _ _ hlen
  · subst hc
    have h0 : ('.' :: rest).takeWhile isDigitC = [] := by
      simp [List.takeWhile_cons, isDigitC]
    unfold lexNumberOut at h
    dsimp only at h
    rw [h0] at h
    simp only [List.length_nil, List.drop_zero] at h
    split at h
    · exact absurd h (by simp)
    · injection h with h'
      subst h'
      dsimp only
      omega

theorem toToken_conclusions (o : LexOut) (src : List Char) (c line : Nat)
    (cm : List String) (sN : Bool) (ch : Char) (rest : List Char)
    (hdrop : src.drop c = ch :: rest)
    (t1 : o.type ≠ "newline") (t2 : o.type ≠ "end")
    (t3 : o.type ≠ "unary_plus") (t4 : o.type ≠ "unary_minus")
    (hcons : 1 ≤ o.consumed) :
    ((o.toToken c line cm).type = "newline" → sN = true) ∧
    (o.toToken c line cm).type ≠ "unary_plus" ∧
    (o.toToken c line cm).type ≠ "unary_minus" ∧
    ((src.drop c = [] ∧ (o.toToken c line cm).type = "end" ∧
        (o.toToken c line cm).start = src.length ∧
        (o.toToken c line cm).end_ = src.length) ∨
     (src.drop c ≠ [] ∧ (o.toToken c line cm).type ≠ "end" ∧
        (o.toToken c line cm).start = c ∧ c < (o.toToken c line cm).end_)) := by
  refine ⟨fun hx => absurd hx t1, t3, t4, Or.inr ⟨by simp [hdrop], t2, rfl, ?_⟩⟩
  show c < c + o.consumed
  omega

theorem classify_main (src : List Char) (c line : Nat) (sN sO : Bool)
    (cm : List String) (tok : Token) (c2 l2 : Nat)
    (h : classify src c line sN sO cm = .ok (tok, c2, l2)) :
    (tok.type = "newline" → sN = true) ∧
    tok.type ≠ "unary_plus" ∧ tok.type ≠ "unary_minus" ∧
    ((src.drop c = [] ∧ tok.type = "end" ∧ tok.start = src.length ∧
        tok.end_ = src.length) ∨
     (src.drop c ≠ [] ∧ tok.type ≠ "end" ∧ tok.start = c ∧ c < tok.end_)) := by
  unfold classify at h
  split at h
  · rename_i hdrop
    simp only [Except.ok.injEq, Prod.mk.injEq] at h
    obtain ⟨h1, -, -⟩ := h
    subst h1
    exact ⟨fun hx => by simp at hx, by simp, by simp,
      Or.inl ⟨hdrop, rfl, rfl, rfl⟩⟩
  · rename_i ch rest hdrop
    split at h
    · rename_i hident
      simp only [Except.ok.injEq, Prod.mk.injEq] at h
      obtain ⟨h1, -, -⟩ := h
      subst h1
      obtain ⟨t1, t2, t3, t4⟩ := lexIdentOut_type_safe (ch :: rest)
      exact toToken_conclusions _ src c line cm sN ch rest hdrop t1 t2 t3 t4
        (lexIdentOut_consumed ch rest hident)
    · rename_i hident
      split at h
      · rename_i hnum
        split at h
        · exact absurd h (by simp)
        · rename_i o heq
          simp only [Except.ok.injEq, Prod.mk.injEq] at h
          obtain ⟨h1, -, -⟩ := h
          subst h1
          have hty := lexNumberOut_type _ _ heq
          have hd : isDigitC ch = true ∨ (ch = '.' ∧ headDigit rest = true) := by
            simpa [Bool.or_eq_true, Bool.and_eq_true, beq_iff_eq] using hnum
          exact toToken_conclusions _ src c line cm sN ch rest hdrop
            (by rw [hty]; decide) (by rw [hty]; decide)
            (by rw [hty]; decide) (by rw [hty]; decide)
            (lexNumberOut_consumed ch rest o hd heq)
      · rename_i hnum
        split at h
        · rename_i hstr
          split at h
          · exact absurd h (by simp)
          · rename_i cs n heq
            simp only [Except.ok.injEq, Prod.mk.injEq] at h
            obtain ⟨h1, -, -⟩ := h
            subst h1
            exact toToken_conclusions _ src c line cm sN ch rest hdrop
              (by show ("string" : String) ≠ "newline"; decide)
              (by show ("string" : String) ≠ "end"; decide)
              (by show ("string" : String) ≠ "unary_plus"; decide)
              (by show ("string" : String) ≠ "unary_minus"; decide)
              (by show 1 ≤ 1 + n; omega)
        · rename_i hstr
          split at h
          · rename_i hregex
            split at h
            · exact absurd h (by simp)
            · rename_i o heq
              simp only [Except.ok.injEq, Prod.mk.injEq] at h
              obtain ⟨h1, -, -⟩ := h
              subst h1
              obtain ⟨hty, hcons⟩ := lexRegExpOut_spec _ _ heq
              exact toToken_conclusions _ src c line cm sN ch rest hdrop
                (by rw [hty]; decide) (by rw [hty]; decide)
                (by rw [hty]; decide) (by rw [hty]; decide) hcons
          · rename_i hregex
            split at h
            · rename_i hnl
              have hsN : sN = true := by
                simp only [Bool.and_eq_true] at hnl
                exact hnl.2
              simp only [Except.ok.injEq, Prod.mk.injEq] at h
              obtain ⟨h1, -, -⟩ := h
              subst h1
              refine ⟨fun _ => hsN,
                by show ("newline" : String) ≠ "unary_plus"; decide,
                by show ("newline" : String) ≠ "unary_minus"; decide,
                Or.inr ⟨by simp [hdrop],
                  by show ("newline" : String) ≠ "end"; decide, rfl, ?_⟩⟩
              show c < c + 1
              omega
            · rename_i hnl
              split at h
              · exact absurd h (by simp)
              · rename_i o heq
                simp only [Except.ok.injEq, Prod.mk.injEq] at h
                obtain ⟨h1, -, -⟩ := h
                subst h1
                obtain ⟨hcons, hty⟩ := lexOpOut_spec _ _ heq
                rcases hty with hty | ⟨p, hp, hty⟩
                · exact toToken_conclusions _ src c line cm sN ch rest hdrop
                    (by rw [hty]; decide) (by rw [hty]; decide)
                    (by rw [hty]; decide) (by rw [hty]; decide) hcons
                · obtain ⟨f1, f2, f3, f4, -⟩ := opMatchList_facts p hp
                  exact toToken_conclusions _ src c line cm sN ch rest hdrop
                    (by rw [hty]; exact f1) (by rw [hty]; exact f2)
                    (by rw [hty]; exact f3) (by rw [hty]; exact f4) hcons

theorem getFresh_ok (s : Tokenizer) (tt : String) (s' : Tokenizer)
    (h : s.getFresh = .ok (tt, s')) :
    ∃ tok c2 l2, tok.type = tt ∧ (tok.type = "newline" → s.scanNewlines = true) ∧
      s' = freshState s tok c2 l2 := by
  unfold Tokenizer.getFresh at h
  split at h
  · exact absurd h (by simp)
  · rename_i c1 line1 comments hskip
    split at h
    · exact absurd h (by simp)
    · rename_i tok c2 l2 hcls
      simp only [Except.ok.injEq, Prod.mk.injEq] at h
      obtain ⟨h1, h2⟩ := h
      exact ⟨tok, c2, l2, h1,
        fun hx => (classify_main _ _ _ _ _ _ _ _ _ hcls).1 hx, h2.symm⟩

theorem getLoop_main : ∀ (n : Nat) (s : Tokenizer) (tt : String) (s' : Tokenizer),
    Tokenizer.getLoop n s = .ok (tt, s') →
    s'.scanNewlines = s.scanNewlines ∧ s'.scanOperand = s.scanOperand ∧
    s'.source = s.source ∧ s'.filename = s.filename ∧ s'.tokenIndex < 4 ∧
    ∃ tok, s'.tokens.get s'.tokenIndex = some tok ∧ tok.type = tt ∧
      (tok.type = "newline" → s'.scanNewlines = true) := by
  intro n
  induction n with
  | zero =>
    intro s tt s' h
    obtain ⟨tok, c2, l2, h1, h2, h3⟩ := getFresh_ok s tt s' h
    subst h3
    exact ⟨rfl, rfl, rfl, rfl, by show (s.tokenIndex + 1) % 4 < 4; omega,
      tok, Ring4.get_set_self _ _ _, h1, h2⟩
  | succ n ih =>
    intro s tt s' h
    unfold Tokenizer.getLoop at h
    dsimp only at h
    split at h
    · exact absurd h (by simp)
    · rename_i tok hslot
      split at h
      · have hr := ih _ tt s' h
        exact hr
      · rename_i hcond
        simp only [Except.ok.injEq, Prod.mk.injEq] at h
        obtain ⟨h1, h2⟩ := h
        subst h2
        refine ⟨rfl, rfl, rfl, rfl, by show (s.tokenIndex + 1) % 4 < 4; omega,
          tok, hslot, h1, ?_⟩
        intro hx
        simpa [hx] using hcond

theorem getLoop_lookahead : ∀ (n : Nat) (s : Tokenizer) (tt : String)
    (s' : Tokenizer), s.lookahead = n → Tokenizer.getLoop n s = .ok (tt, s') →
    s'.lookahead = 0 ∨ s'.lookahead + 1 ≤ n := by
  intro n
  induction n with
  | zero =>
    intro s tt s' hla h
    obtain ⟨tok, c2, l2, -, -, h3⟩ := getFresh_ok s tt s' h
    subst h3
    exact Or.inl hla
  | succ n ih =>
    intro s tt s' hla h
    unfold Tokenizer.getLoop at h
    dsimp only at h
    split at h
    · exact absurd h (by simp)
    · rename_i tok hslot
      split at h
      · rcases ih _ tt s' rfl h with h0 | h1
        · exact Or.inl h0
        · exact Or.inr (by omega)
      · simp only [Except.ok.injEq, Prod.mk.injEq] at h
        obtain ⟨-, h2⟩ := h
        subst h2
        refine Or.inr ?_
        show n + 1 ≤ n + 1
        omega

theorem get_main (s : Tokenizer) (tt : String) (s' : Tokenizer)
    (h : s.get = .ok (tt, s')) :
    s'.scanNewlines = s.scanNewlines ∧ s'.scanOperand = s.scanOperand ∧
    s'.source = s.source ∧ s'.filename = s.filename ∧ s'.tokenIndex < 4 ∧
    ∃ tok, s'.tokens.get s'.tokenIndex = some tok ∧ tok.type = tt ∧
      (tok.type = "newline" → s'.scanNewlines = true) :=
  getLoop_main s.lookahead s tt s' h

theorem get_lookahead_le (s : Tokenizer) (tt : String) (s' : Tokenizer)
    (hla : s.lookahead ≤ 3) (h : s.get = .ok (tt, s')) : s'.lookahead ≤ 2 := by
  rcases getLoop_lookahead s.lookahead s tt s' rfl h with h0 | h1 <;> omega

theorem unget_ok (s : Tokenizer) (h : s.lookahead + 1 ≠ 4) :
    s.unget = .ok (ungetState s) := by
  unfold Tokenizer.unget ungetState
  dsimp only
  have hb : (s.lookahead + 1 == 4) = false := by simpa using h
  simp [hb]

theorem get_unget_get_aux (s : Tokenizer) (tt : String) (s1 : Tokenizer)
    (hla : s.lookahead ≤ 3) (h : s.get = .ok (tt, s1)) :
    s1.unget = .ok (ungetState s1) ∧ (ungetState s1).get = .ok (tt, s1) ∧
    s1.token.map Token.type = some tt := by
  obtain ⟨hsn, -, -, -, hti, tok, hslot, hty, hnl⟩ := get_main s tt s1 h
  have hle := get_lookahead_le s tt s1 hla h
  have hidx : ((s1.tokenIndex + 3) % 4 + 1) % 4 = s1.tokenIndex := by omega
  have hcond : (tok.type == "newline" && !s1.scanNewlines) = false := by
    cases hx : tok.type == "newline"
    · simp [hx]
    · have hs := hnl (by simpa using hx)
      simp [hs]
  refine ⟨unget_ok s1 (by omega), ?_, ?_⟩
  · show Tokenizer.getLoop (s1.lookahead + 1) (ungetState s1) = .ok (tt, s1)
    unfold Tokenizer.getLoop
    dsimp only [ungetState]
    rw [hidx, hslot]
    dsimp only
    rw [if_neg (by simp [hcond])]
    rw [hty]
  · show (s1.tokens.get s1.tokenIndex).map Token.type = some tt
    rw [hslot]
    simp [hty]

theorem unget_ok_inv (s s' : Tokenizer) (h : s.unget = .ok s') :
    s' = ungetState s := by
  unfold Tokenizer.unget at h
  dsimp only at h
  split at h
  · exact absurd h (by simp)
  · injection h with h'
    exact h'.symm

/-- C2: in every state where get succeeds (under the ring buffer
invariant lookahead at most 3), get followed by unget followed by get
replays the very same outcome: the second get succeeds, returns the
same type, and leaves the tokenizer in exactly the state the first
get produced, so the current token (type, value, start, end, line)
is unchanged. -/
theorem get_after_unget_replays (s : Tokenizer) (tt : String) (s1 : Tokenizer)
    (hla : s.lookahead ≤ 3) (h : s.get = .ok (tt, s1)) :
    (s1.unget >>= Tokenizer.get) = .ok (tt, s1) ∧
    s1.token.map Token.type = some tt := by
  obtain ⟨hu, hg, htok⟩ := get_unget_get_aux s tt s1 hla h
  rw [hu]
  exact ⟨hg, htok⟩

theorem get_after_unget_replays_witness :
    (wGetState.unget >>= Tokenizer.get) = .ok ("identifier", wGetState) ∧
    wGetState.token.map Token.type = some "identifier" :=
  get_after_unget_replays (Tokenizer.init ['a'] "f") "identifier" wGetState
    (by decide) (by rfl)

/-- C3: unget always succeeds when lookahead is at most 2, adding one
to lookahead and moving tokenIndex back one slot modulo 4; it raises
exactly when the incremented lookahead would equal 4; in particular
from a state with no lookahead three consecutive ungets succeed and
the fourth raises LookaheadOverflow. -/
theorem unget_overflow_spec (s : Tokenizer) :
    (s.lookahead ≤ 2 → s.unget = .ok (ungetState s)) ∧
    (s.unget = .error .lookaheadOverflow ↔ s.lookahead + 1 = 4) ∧
    (s.lookahead = 0 →
      s.unget = .ok (ungetState s) ∧
      (ungetState s).unget = .ok (ungetState (ungetState s)) ∧
      (ungetState (ungetState s)).unget =
        .ok (ungetState (ungetState (ungetState s))) ∧
      (ungetState (ungetState (ungetState s))).unget =
        .error .lookaheadOverflow) := by
  refine ⟨fun hle => unget_ok s (by omega), ⟨?_, ?_⟩, fun h0 => ?_⟩
  · intro he
    by_cases hc : s.lookahead + 1 = 4
    · exact hc
    · rw [unget_ok s hc] at he
      exact absurd he (by simp)
  · intro hc
    unfold Tokenizer.unget
    dsimp only
    have hb : (s.lookahead + 1 == 4) = true := by simpa using hc
    rw [if_pos hb]
  · refine ⟨unget_ok s (by omega), unget_ok _ ?_, unget_ok _ ?_, ?_⟩
    · show s.lookahead + 1 + 1 ≠ 4
      omega
    · show s.lookahead + 1 + 1 + 1 ≠ 4
      omega
    · unfold Tokenizer.unget
      dsimp only
      have hb : ((ungetState (ungetState (ungetState s))).lookahead + 1 == 4)
          = true := by
        show (s.lookahead + 1 + 1 + 1 + 1 == 4) = true
        rw [h0]
        decide
      rw [if_pos hb]

theorem unget_overflow_spec_witness :
    (Tokenizer.init ['a'] "f").unget =
      .ok (ungetState (Tokenizer.init ['a'] "f")) ∧
    (ungetState (ungetState (ungetState (Tokenizer.init ['a'] "f")))).unget =
      .error .lookaheadOverflow :=
  ⟨(unget_overflow_spec (Tokenizer.init ['a'] "f")).1 (by decide),
   ((unget_overflow_spec (Tokenizer.init ['a'] "f")).2.2 rfl).2.2.2⟩

/-- C7: match calls get; when the returned type equals the requested
type it keeps the fetched token as current and answers true (the
current token then carries that type); otherwise it calls unget and
answers the falsy result, and the consumption point is rewound by
exactly the one fetched token: the next get returns that very token
again. -/
theorem match_commit_or_rewind (s : Tokenizer) (tokenType tt : String)
    (s1 : Tokenizer) (hla : s.lookahead ≤ 3) (h : s.get = .ok (tt, s1)) :
    (tt = tokenType →
      s.matchTok tokenType = .ok (true, s1) ∧
      s1.token.map Token.type = some tt) ∧
    (tt ≠ tokenType →
      s.matchTok tokenType = .ok (false, ungetState s1) ∧
      (ungetState s1).get = .ok (tt, s1)) := by
  obtain ⟨hu, hg, htok⟩ := get_unget_get_aux s tt s1 hla h
  constructor
  · intro he
    refine ⟨?_, htok⟩
    unfold Tokenizer.matchTok
    rw [h]
    dsimp only
    rw [if_pos (by simp [he])]
  · intro hne
    refine ⟨?_, hg⟩
    unfold Tokenizer.matchTok
    rw [h]
    dsimp only
    rw [if_neg (by simp [hne])]
    rw [hu]

theorem match_commit_or_rewind_witness :
    (Tokenizer.init ['a'] "f").matchTok "identifier" = .ok (true, wGetState) ∧
    wGetState.token.map Token.type = some "identifier" :=
  (match_commit_or_rewind (Tokenizer.init ['a'] "f") "identifier" "identifier"
    wGetState (by decide) (by rfl)).1 rfl

theorem lexStringBody_error_aux : ∀ (n : Nat) (l : List Char) (d : Char)
    (e : ScanError), l.length ≤ n → lexStringBody d l = .error e →
    e = .unterminatedString := by
  intro n
  induction n with
  | zero =>
    intro l d e hl h
    have hnil : l = [] := List.eq_nil_of_length_eq_zero (by omega)
    subst hnil
    unfold lexStringBody at h
    injection h with h'
    exact h'.symm
  | succ n ih =>
    intro l d e hl h
    cases l with
    | nil =>
      unfold lexStringBody at h
      injection h with h'
      exact h'.symm
    | cons c rest =>
      unfold lexStringBody at h
      split at h
      · exact absurd h (by simp)
      · split at h
        · split at h
          · injection h with h'
            exact h'.symm
          · rename_i e2 rest2
            split at h
            · rename_i err heq
              injection h with h'
              subst h'
              exact ih rest2 d err (by simp at hl; omega) heq
            · exact absurd h (by simp)
        · split at h
          · rename_i err heq
            injection h with h'
            subst h'
            exact ih rest d err (by simp at hl; omega) heq
          · exact absurd h (by simp)

/-- C9: a string literal scan can only fail with UnterminatedString
(running off the end of the input before an unescaped closing quote),
and on the concrete input double-quote a b c the public get raises
exactly that error. -/
theorem unterminated_string_error (d : Char) (l : List Char) (e : ScanError)
    (h : lexStringBody d l = .error e) :
    e = .unterminatedString ∧
    (Tokenizer.init ['"', 'a', 'b', 'c'] "f").get =
      .error .unterminatedString :=
  ⟨lexStringBody_error_aux l.length l d e le_rfl h, by rfl⟩

theorem unterminated_string_error_witness :
    (ScanError.unterminatedString = ScanError.unterminatedString) ∧
    (Tokenizer.init ['"', 'a', 'b', 'c'] "f").get =
      .error .unterminatedString :=
  unterminated_string_error '"' [] .unterminatedString (by rfl)

/-- C10: none of get, unget, peek, match, mustMatch changes the
scanNewlines or scanOperand mode flags: whenever one of them
succeeds, both flags in the resulting state equal their values in the
starting state (peekOnSameLine is the only public operation that
writes scanNewlines). -/
theorem mode_flags_frame (s : Tokenizer) :
    (∀ tt s', s.get = .ok (tt, s') →
      s'.scanNewlines = s.scanNewlines ∧ s'.scanOperand = s.scanOperand) ∧
    (∀ s', s.unget = .ok s' →
      s'.scanNewlines = s.scanNewlines ∧ s'.scanOperand = s.scanOperand) ∧
    (∀ r s', s.peek = .ok (r, s') →
      s'.scanNewlines = s.scanNewlines ∧ s'.scanOperand = s.scanOperand) ∧
    (∀ tokenType b s', s.matchTok tokenType = .ok (b, s') →
      s'.scanNewlines = s.scanNewlines ∧ s'.scanOperand = s.scanOperand) ∧
    (∀ tokenType t s', s.mustMatch tokenType = .ok (t, s') →
      s'.scanNewlines = s.scanNewlines ∧ s'.scanOperand = s.scanOperand) := by
  have hget : ∀ (u : Tokenizer) tt s', u.get = .ok (tt, s') →
      s'.scanNewlines = u.scanNewlines ∧ s'.scanOperand = u.scanOperand := by
    intro u tt s' h
    obtain ⟨h1, h2, -⟩ := get_main u tt s' h
    exact ⟨h1, h2⟩
  have hunget : ∀ (u : Tokenizer) s', u.unget = .ok s' →
      s'.scanNewlines = u.scanNewlines ∧ s'.scanOperand = u.scanOperand := by
    intro u s' h
    rw [unget_ok_inv u s' h]
    exact ⟨rfl, rfl⟩
  have hmatch : ∀ (u : Tokenizer) tokenType b s',
      u.matchTok tokenType = .ok (b, s') →
      s'.scanNewlines = u.scanNewlines ∧ s'.scanOperand = u.scanOperand := by
    intro u tokenType b s' h
    unfold Tokenizer.matchTok at h
    split at h
    · exact absurd h (by simp)
    · rename_i tt s1 hg
      split at h
      · simp only [Except.ok.injEq, Prod.mk.injEq] at h
        obtain ⟨-, h2⟩ := h
        subst h2
        exact hget u tt s1 hg
      · split at h
        · exact absurd h (by simp)
        · rename_i s2 hu
          simp only [Except.ok.injEq, Prod.mk.injEq] at h
          obtain ⟨-, h2⟩ := h
          subst h2
          have h3 := hunget s1 s2 hu
          have h4 := hget u tt s1 hg
          exact ⟨h3.1.trans h4.1, h3.2.trans h4.2⟩
  refine ⟨hget s, hunget s, ?_, hmatch s, ?_⟩
  · intro r s' h
    unfold Tokenizer.peek at h
    split at h
    · simp only [Except.ok.injEq, Prod.mk.injEq] at h
      obtain ⟨-, h2⟩ := h
      subst h2
      exact ⟨rfl, rfl⟩
    · split at h
      · exact absurd h (by simp)
      · rename_i tt s1 hg
        split at h
        · exact absurd h (by simp)
        · rename_i s2 hu
          simp only [Except.ok.injEq, Prod.mk.injEq] at h
          obtain ⟨-, h2⟩ := h
          subst h2
          have h3 := hunget s1 s2 hu
          have h4 := hget s tt s1 hg
          exact ⟨h3.1.trans h4.1, h3.2.trans h4.2⟩
  · intro tokenType t s' h
    unfold Tokenizer.mustMatch at h
    split at h
    · exact absurd h (by simp)
    · rename_i b s1 hm
      split at h
      · simp only [Except.ok.injEq, Prod.mk.injEq] at h
        obtain ⟨-, h2⟩ := h
        subst h2
        exact hmatch s tokenType b s1 hm
      · exact absurd h (by simp)

theorem mode_flags_frame_witness :
    (wGetState.scanNewlines = (Tokenizer.init ['a'] "f").scanNewlines ∧
     wGetState.scanOperand = (Tokenizer.init ['a'] "f").scanOperand) ∧
    ((ungetState wGetState).scanNewlines = wGetState.scanNewlines ∧
     (ungetState wGetState).scanOperand = wGetState.scanOperand) ∧
    (wPeekBackState.scanNewlines = (Tokenizer.init ['a'] "f").scanNewlines ∧
     wPeekBackState.scanOperand = (Tokenizer.init ['a'] "f").scanOperand) :=
  ⟨(mode_flags_frame (Tokenizer.init ['a'] "f")).1 "identifier" wGetState
      (by rfl),
   (mode_flags_frame wGetState).2.1 (ungetState wGetState) (by rfl),
   (mode_flags_frame (Tokenizer.init ['a'] "f")).2.2.1 (some "identifier")
      wPeekBackState (by rfl)⟩

/-- C4: a token produced by a fresh scan (get from a state with no
buffered lookahead) has type end exactly when the skipper left no
unconsumed text, and then both its start and its end equal the source
length; every other produced token satisfies start strictly below
end. -/
theorem end_token_positions (s : Tokenizer) (tt : String) (s' : Tokenizer)
    (h0 : s.lookahead = 0) (h : s.get = .ok (tt, s')) (tok : Token)
    (htok : s'.token = some tok) :
    (tok.type = "end" → tok.start = s.source.length ∧
      tok.end_ = s.source.length) ∧
    (tok.type ≠ "end" → tok.start < tok.end_) ∧
    (∀ c1 l1 cm, skip s.source s.cursor s.scanNewlines s.line = .ok (c1, l1, cm) →
      (tok.type = "end" ↔ s.source.length ≤ c1)) := by
  unfold Tokenizer.get at h
  rw [h0] at h
  have hf : s.getFresh = .ok (tt, s') := h
  unfold Tokenizer.getFresh at hf
  split at hf
  · exact absurd hf (by simp)
  · rename_i c10 l10 cm0 hskip
    split at hf
    · exact absurd hf (by simp)
    · rename_i tok0 c2 l2 hcls
      simp only [Except.ok.injEq, Prod.mk.injEq] at hf
      obtain ⟨-, h2⟩ := hf
      subst h2
      have hslot : some tok = some tok0 :=
        htok.symm.trans
          (Ring4.get_set_self s.tokens ((s.tokenIndex + 1) % 4) tok0)
      injection hslot with hslot
      subst hslot
      obtain ⟨-, -, -, hpos⟩ := classify_main _ _ _ _ _ _ _ _ _ hcls
      rcases hpos with ⟨hdrop, hend, hstart, hende⟩ | ⟨hdrop, hne, hstart, hlt⟩
      · refine ⟨fun _ => ⟨hstart, hende⟩, fun hx => absurd hend hx, ?_⟩
        intro c1 l1 cm hsk
        rw [hskip] at hsk
        simp only [Except.ok.injEq, Prod.mk.injEq] at hsk
        obtain ⟨hc1, -⟩ := hsk
        subst hc1
        exact ⟨fun _ => List.drop_eq_nil_iff.mp hdrop, fun _ => hend⟩
      · refine ⟨fun hx => absurd hx hne, fun _ => hstart ▸ hlt, ?_⟩
        intro c1 l1 cm hsk
        rw [hskip] at hsk
        simp only [Except.ok.injEq, Prod.mk.injEq] at hsk
        obtain ⟨hc1, -⟩ := hsk
        subst hc1
        refine ⟨fun hx => absurd hx hne, fun hle => ?_⟩
        exact absurd (List.drop_eq_nil_of_le hle) hdrop

theorem end_token_positions_witness :
    (wTokA.type = "end" → wTokA.start = (Tokenizer.init ['a'] "f").source.length ∧
      wTokA.end_ = (Tokenizer.init ['a'] "f").source.length) ∧
    (wTokA.type ≠ "end" → wTokA.start < wTokA.end_) ∧
    (wTokA.type = "end" ↔ (Tokenizer.init ['a'] "f").source.length ≤ 0) := by
  have h := end_token_positions (Tokenizer.init ['a'] "f") "identifier"
    wGetState rfl (by rfl) wTokA (by rfl)
  exact ⟨h.1, h.2.1, h.2.2 0 1 [] (by rfl)⟩

/-- C6: the classification of a token whose first character is not a
slash does not depend on scanOperand at all (in particular plus and
minus scan identically in both modes), no produced token ever has a
type unary_plus or unary_minus, and concretely the sources plus and
minus yield the ordinary plus and minus operator tokens under either
value of scanOperand. -/
theorem no_unary_token_types :
    (∀ (src : List Char) (c line : Nat) (sN : Bool) (cm : List String)
        (ch : Char) (rest : List Char), src.drop c = ch :: rest → ch ≠ '/' →
        classify src c line sN true cm = classify src c line sN false cm) ∧
    (∀ (src : List Char) (c line : Nat) (sN sO : Bool) (cm : List String)
        (tok : Token) (c2 l2 : Nat),
        classify src c line sN sO cm = .ok (tok, c2, l2) →
        tok.type ≠ "unary_plus" ∧ tok.type ≠ "unary_minus") ∧
    (∀ b : Bool,
      ({ Tokenizer.init ['+'] "f" with scanOperand := b }).get =
        .ok ("plus",
          { Tokenizer.init ['+'] "f" with
            scanOperand := b,
            cursor := 1,
            tokenIndex := 1,
            tokens := ⟨none, some c6tokPlus, none, none⟩ }) ∧
      ({ Tokenizer.init ['-'] "f" with scanOperand := b }).get =
        .ok ("minus",
          { Tokenizer.init ['-'] "f" with
            scanOperand := b,
            cursor := 1,
            tokenIndex := 1,
            tokens := ⟨none, some c6tokMinus, none, none⟩ })) := by
  refine ⟨?_, ?_, ?_⟩
  · intro src c line sN cm ch rest hdrop hch
    unfold classify
    rw [hdrop]
    have hb : (ch == '/') = false := by simpa using hch
    simp only [hb, Bool.and_false]
  · intro src c line sN sO cm tok c2 l2 h
    obtain ⟨-, h2, h3, -⟩ := classify_main _ _ _ _ _ _ _ _ _ h
    exact ⟨h2, h3⟩
  · intro b
    cases b
    · exact ⟨by rfl, by rfl⟩
    · exact ⟨by rfl, by rfl⟩

theorem no_unary_token_types_witness :
    classify ['+'] 0 1 false true [] = classify ['+'] 0 1 false false [] ∧
    (c6tokPlus.type ≠ "unary_plus" ∧ c6tokPlus.type ≠ "unary_minus") :=
  ⟨no_unary_token_types.1 ['+'] 0 1 false [] '+' [] (by rfl) (by decide),
   no_unary_token_types.2.1 ['+'] 0 1 false true [] c6tokPlus 1 1 (by rfl)⟩

/-- C5: scanning the source x space triple-greater equals space 1 from
the initial state yields exactly the identifier token x, the assign
token whose assignOp is ursh and whose matched text is the
four-character compound operator, and the number token with integer
value 1; and in general, whenever the operator matcher finds a symbol
from the compoundable assignOps set and an equals sign follows
immediately, the operator lexer reclassifies the token as assign with
assignOp the base operator name and the matched text extended by the
equals sign. -/
theorem compound_assign_ursh :
    c5run = .ok [("identifier", some c5tok1), ("assign", some c5tok2),
                 ("number", some c5tok3)] ∧
    (∀ (l : List Char) (sym name : String),
      findOp l = some (sym, name) → assignOps.contains sym = true →
      (l.drop sym.length).head? = some '=' →
      lexOpOut l = some { type := "assign", value := .str (sym ++ "="),
                          variant := "", assignOp := some name,
                          consumed := sym.length + 1 }) := by
  constructor
  · rfl
  · intro l sym name hf hc hh
    unfold lexOpOut
    rw [hf]
    dsimp only
    rw [if_pos (by rw [hc, hh]; rfl)]

theorem compound_assign_ursh_witness :
    lexOpOut ['|', '='] =
      some { type := "assign", value := .str ("|" ++ "="), variant := "",
             assignOp := some "bitwise_or", consumed := "|".length + 1 } :=
  compound_assign_ursh.2 ['|', '='] "|" "bitwise_or" (by rfl) (by rfl) (by rfl)

/-- C8 counterexample: starting from a state whose scanNewlines is
already true, peekOnSameLine leaves scanNewlines false afterwards, so
the flag does not equal its value from before the call — the source
assigns False unconditionally instead of restoring the previous
value. -/
theorem peekOnSameLine_not_restoring :
    ({ Tokenizer.init ['a'] "f" with scanNewlines := true }).peekOnSameLine =
      .ok (some "identifier", wPeekBackState) ∧
    wPeekBackState.scanNewlines ≠
      ({ Tokenizer.init ['a'] "f" with scanNewlines := true }).scanNewlines :=
  ⟨by rfl, by decide⟩

/-- C8 amended: peekOnSameLine returns the result of peek evaluated
with scanNewlines forced to true, and afterwards scanNewlines is
false — the parser default — rather than the value from before the
call; a caller whose scanNewlines was already false therefore sees it
unchanged, but a caller whose scanNewlines was true sees it cleared. -/
theorem peekOnSameLine_clears_flag (s : Tokenizer) (tt : Option String)
    (s2 : Tokenizer) (h : s.peekOnSameLine = .ok (tt, s2)) :
    s2.scanNewlines = false ∧
    (∃ s1, ({ s with scanNewlines := true } : Tokenizer).peek = .ok (tt, s1) ∧
      s2 = { s1 with scanNewlines := false }) ∧
    (s.scanNewlines = false → s2.scanNewlines = s.scanNewlines) := by
  unfold Tokenizer.peekOnSameLine at h
  dsimp only at h
  split at h
  · exact absurd h (by simp)
  · rename_i tt0 s1 hp
    simp only [Except.ok.injEq, Prod.mk.injEq] at h
    obtain ⟨h1, h2⟩ := h
    subst h1
    subst h2
    exact ⟨rfl, ⟨s1, hp, rfl⟩, fun hf => hf.symm⟩

theorem peekOnSameLine_clears_flag_witness :
    wPeekBackState.scanNewlines = false ∧
    ((Tokenizer.init ['a'] "f").scanNewlines = false →
      wPeekBackState.scanNewlines = (Tokenizer.init ['a'] "f").scanNewlines) :=
  ⟨(peekOnSameLine_clears_flag (Tokenizer.init ['a'] "f") (some "identifier")
      wPeekBackState (by rfl)).1,
   (peekOnSameLine_clears_flag (Tokenizer.init ['a'] "f") (some "identifier")
      wPeekBackState (by rfl)).2.2⟩

/-- C1 counterexample: driving the public interface on the source
a-space-semicolon with get, get, unget, unget reaches a state with two
buffered lookahead tokens in which peek answers semicolon while the
eventual get returns identifier — peek inspects the slot at
tokenIndex plus lookahead while get replays the slot at tokenIndex
plus one, so with more than one buffered token the two disagree. -/
theorem peek_two_buffered_mismatch :
    c1run = .ok (some "semicolon", "identifier") ∧
    ("semicolon" : String) ≠ "identifier" :=
  ⟨by rfl, by decide⟩

/-- C1 amended: peek never moves the consumption point — tokenIndex
and the current token are unchanged — and with at most one buffered
lookahead token peek agrees with the eventual get: with none buffered,
peek performs get then unget and the following get replays the same
type; with exactly one buffered token it agrees provided the
documented newline-reporting special cases do not apply (scanNewlines
set with a buffered token from another line, or a buffered newline
token with scanNewlines off).  With two or three buffered tokens peek
inspects a different slot than get replays and may disagree. -/
theorem peek_lookahead_agreement (s : Tokenizer) (h4 : s.tokenIndex < 4) :
    (∀ r s', s.peek = .ok (r, s') →
      s'.tokenIndex = s.tokenIndex ∧ s'.token = s.token) ∧
    (s.lookahead = 0 → ∀ tt s1, s.get = .ok (tt, s1) →
      s.peek = .ok (some tt, ungetState s1) ∧
      (ungetState s1).get = .ok (tt, s1)) ∧
    (∀ tok, s.lookahead = 1 →
      s.tokens.get ((s.tokenIndex + 1) % 4) = some tok →
      (s.scanNewlines = true → tok.line = s.line) →
      (tok.type = "newline" → s.scanNewlines = true) →
      s.peek = .ok (some tok.type, s) ∧
      s.get = .ok (tok.type,
        { s with lookahead := 0, tokenIndex := (s.tokenIndex + 1) % 4 })) := by
  refine ⟨?_, ?_, ?_⟩
  · intro r s' hp
    unfold Tokenizer.peek at hp
    split at hp
    · simp only [Except.ok.injEq, Prod.mk.injEq] at hp
      obtain ⟨-, h2⟩ := hp
      subst h2
      exact ⟨rfl, rfl⟩
    · rename_i hla0
      have hla : s.lookahead = 0 := by omega
      split at hp
      · exact absurd hp (by simp)
      · rename_i tt s1 hg
        split at hp
        · exact absurd hp (by simp)
        · rename_i s2 hu
          simp only [Except.ok.injEq, Prod.mk.injEq] at hp
          obtain ⟨-, h2⟩ := hp
          subst h2
          have hg0 : s.getFresh = .ok (tt, s1) := by
            unfold Tokenizer.get at hg
            rw [hla] at hg
            exact hg
          obtain ⟨tok, c2, l2, -, -, hs1⟩ := getFresh_ok s tt s1 hg0
          have hs2 := unget_ok_inv s1 s2 hu
          subst hs1
          subst hs2
          constructor
          · show ((s.tokenIndex + 1) % 4 + 3) % 4 = s.tokenIndex
            omega
          · show (s.tokens.set ((s.tokenIndex + 1) % 4) tok).get
                (((s.tokenIndex + 1) % 4 + 3) % 4) =
              s.tokens.get s.tokenIndex
            have hi : ((s.tokenIndex + 1) % 4 + 3) % 4 = s.tokenIndex := by
              omega
            rw [hi]
            exact Ring4.get_set_ne _ _ _ _ (by omega)
  · intro hla tt s1 hg
    have haux := get_unget_get_aux s tt s1 (by omega) hg
    refine ⟨?_, haux.2.1⟩
    unfold Tokenizer.peek
    rw [if_neg (by omega)]
    rw [hg]
    dsimp only
    rw [haux.1]
  · intro tok hla hslot hline hnl
    have hcond : (s.scanNewlines && tok.line != s.line) = false := by
      cases hsn : s.scanNewlines
      · simp
      · have hll := hline hsn
        simp [hll]
    have hcond2 : (tok.type == "newline" && !s.scanNewlines) = false := by
      cases hx : tok.type == "newline"
      · simp [hx]
      · have hsn := hnl (by simpa using hx)
        simp [hsn]
    constructor
    · unfold Tokenizer.peek
      rw [if_pos (by omega)]
      rw [hla, hslot]
      dsimp only
      rw [if_neg (by simp [hcond])]
    · unfold Tokenizer.get
      rw [hla]
      have h01 : Tokenizer.getLoop 1 s = Tokenizer.getLoop (0 + 1) s := rfl
      rw [h01]
      unfold Tokenizer.getLoop
      dsimp only
      rw [hslot]
      dsimp only
      rw [if_neg (by simp [hcond2])]

theorem peek_lookahead_agreement_witness :
    wPeekBackState.peek = .ok (some wTokA.type, wPeekBackState) ∧
    wPeekBackState.get = .ok (wTokA.type,
      { wPeekBackState with
        lookahead := 0,
        tokenIndex := (wPeekBackState.tokenIndex + 1) % 4 }) :=
  (peek_lookahead_agreement wPeekBackState (by decide)).2.2 wTokA rfl
    (by rfl) (by decide) (by decide)
